import Mathlib

/-!
Shallow embedding of the Translatiner audio-translation application
(`src/models/data_models.py`, `src/models/file_queue.py`,
`src/services/subtitle_manager.py`, `src/services/translator.py`,
`src/ui/file_queue.py`, `src/ui/main_window.py`) together with proofs
about its queue invariants, caption lookup, move semantics, caching
behaviour and batch translation.

Conventions of the embedding:
* Python `float` time stamps are modelled as exact rationals (`ℚ`); all
  comparisons performed by the code on the values appearing in this
  development are exact in both representations.
* Mutating methods become functions `state → result × state`.
* Python `int` indices (which may be `-1`) are modelled as `Int`.
-/

namespace Translatiner

/-- Embedding of `FileState` (`src/models/data_models.py`, lines 13-19):
the enum has exactly the five members `PENDING`, `PROCESSING`, `READY`,
`PLAYING`, `COMPLETED`. -/
inductive FileState where
  | PENDING
  | PROCESSING
  | READY
  | PLAYING
  | COMPLETED
deriving DecidableEq, Repr, Fintype

/-- Embedding of `TranslationSegment` (`src/models/data_models.py`,
lines 40-48); the formatting helpers are presentation-only and omitted. -/
structure TranslationSegment where
  start_time : ℚ
  end_time : ℚ
  original_text : String
  translated_text : String
  source_language : String
  target_language : String
deriving DecidableEq, Repr

/-- Embedding of `SubtitleManager` (`src/services/subtitle_manager.py`):
it stores the list `_segments` (the constructor's `segments or []`
defaulting is realised by passing the explicit list). Serialization
helpers are omitted. -/
structure SubtitleManager where
  _segments : List TranslationSegment
deriving DecidableEq, Repr

/-- Embedding of `PlaylistItem` (`src/models/data_models.py`,
lines 22-28) with its optional per-item subtitle manager. -/
structure PlaylistItem where
  file_path : String
  file_name : String
  state : FileState := FileState.PENDING
  subtitle_manager : Option SubtitleManager := none
deriving DecidableEq, Repr

/-- Loop body of `SubtitleManager.get_current_index`
(`src/services/subtitle_manager.py`, lines 42-44): scan the segments in
order, returning the enumeration index `k` of the first segment with
`start_time <= t < end_time`; `-1` once the list is exhausted (the
three trailing returns of the Python method all yield `-1`). -/
def getCurrentIndexLoop (t : ℚ) : List TranslationSegment → Nat → Int
  | [], _ => -1
  | seg :: rest, k =>
      if seg.start_time ≤ t ∧ t < seg.end_time then (k : Int)
      else getCurrentIndexLoop t rest (k + 1)

/-- Embedding of `SubtitleManager.get_current_index`
(`src/services/subtitle_manager.py`, lines 26-54). -/
def SubtitleManager.get_current_index (m : SubtitleManager) (t : ℚ) : Int :=
  if m._segments.isEmpty then -1
  else getCurrentIndexLoop t m._segments 0

/-! Path helpers: embeddings of the `os.path` functions used by the
queue (`posixpath.splitext` and `posixpath.basename`, with `/` as the
only separator, as on the POSIX systems the application targets). -/

/-- Index of the last occurrence of `c` in `cs` (Python `str.rfind`):
`-1` when `c` does not occur. -/
def rfindChar (cs : List Char) (c : Char) : Int :=
  cs.foldlIdx (fun i acc x => if x = c then (i : Int) else acc) (-1)

/-- Embedding of `posixpath.splitext` as called by
`FileQueue._is_valid_format` (`src/models/file_queue.py`, line 56): the
extension is the suffix from the last `.` onwards, provided that dot
lies after the last `/` and the leading characters of the basename are
not all dots. -/
def splitext (p : String) : String × String :=
  let cs := p.data
  let sepIndex := rfindChar cs '/'
  let dotIndex := rfindChar cs '.'
  if sepIndex < dotIndex ∧
      ((cs.drop (sepIndex + 1).toNat).take (dotIndex - sepIndex - 1).toNat).any (· ≠ '.') then
    (⟨cs.take dotIndex.toNat⟩, ⟨cs.drop dotIndex.toNat⟩)
  else
    (p, "")

/-- Embedding of `posixpath.basename` as called by `FileQueue.add_files`
(`src/models/file_queue.py`, line 75): everything after the last `/`. -/
def basename (p : String) : String :=
  ⟨p.data.drop (rfindChar p.data '/' + 1).toNat⟩

/-- ASCII lowercasing, embedding Python's `str.lower` on the ASCII
extension strings compared against `SUPPORTED_FORMATS`. -/
def lowerString (s : String) : String := ⟨s.data.map Char.toLower⟩

/-! Embedding of `FileQueue` (`src/models/file_queue.py`). Mutating
methods return their Python result paired with the updated queue. -/

/-- Embedding of `FileQueue.MAX_FILES` (`src/models/file_queue.py`, line 15). -/
def MAX_FILES : Nat := 5

/-- Embedding of `FileQueue.SUPPORTED_FORMATS`
(`src/models/file_queue.py`, line 16). -/
def SUPPORTED_FORMATS : List String := [".wav", ".mp3"]

/-- Embedding of the `FileQueue` state (`src/models/file_queue.py`,
lines 18-20): the item list `_items` and the cursor `_current_index`. -/
structure FileQueue where
  _items : List PlaylistItem
  _current_index : Int
deriving DecidableEq, Repr

namespace FileQueue

/-- Embedding of `FileQueue.__init__` (`src/models/file_queue.py`,
lines 18-20): empty items, cursor `-1`. -/
def init : FileQueue := ⟨[], -1⟩

/-- Embedding of the `count` property (line 30). -/
def count (q : FileQueue) : Nat := q._items.length

/-- Embedding of the `is_full` property (line 35). -/
def is_full (q : FileQueue) : Bool := MAX_FILES ≤ q._items.length

/-- Embedding of the `current_index` property (line 40). -/
def current_index (q : FileQueue) : Int := q._current_index

/-- Embedding of the `current_file` property (lines 43-47). -/
def current_file (q : FileQueue) : Option String :=
  if 0 ≤ q._current_index ∧ q._current_index < (q._items.length : Int) then
    (q._items.get? q._current_index.toNat).map PlaylistItem.file_path
  else
    none

/-- Embedding of the `has_next` property (line 52). -/
def has_next (q : FileQueue) : Bool :=
  q._current_index < (q._items.length : Int) - 1

/-- Embedding of `FileQueue._is_valid_format` (lines 54-57); the UI
widget's identical copy (`src/ui/file_queue.py`, lines 190-193) is the
same function. -/
def _is_valid_format (p : String) : Bool :=
  let ext := (splitext p).2
  SUPPORTED_FORMATS.contains (lowerString ext)

/-- Loop of `FileQueue.add_files` (lines 68-78): stop when full,
skip unsupported formats, otherwise append a fresh `PENDING` item. -/
def addFilesLoop : FileQueue → List String → Nat → Nat × FileQueue
  | q, [], added => (added, q)
  | q, p :: rest, added =>
      if q.is_full then (added, q)
      else if ¬ _is_valid_format p then addFilesLoop q rest added
      else
        addFilesLoop
          { q with _items := q._items ++ [⟨p, basename p, FileState.PENDING, none⟩] }
          rest (added + 1)

/-- Embedding of `FileQueue.add_files` (lines 59-80). -/
def add_files (q : FileQueue) (file_paths : List String) : Nat × FileQueue :=
  addFilesLoop q file_paths 0

/-- Embedding of `FileQueue.remove_file` (lines 82-102). -/
def remove_file (q : FileQueue) (index : Int) : Bool × FileQueue :=
  if ¬ (0 ≤ index ∧ index < (q._items.length : Int)) then (false, q)
  else
    let items := q._items.eraseIdx index.toNat
    let ci :=
      if (items.length : Int) ≤ q._current_index then (items.length : Int) - 1
      else if index < q._current_index then q._current_index - 1
      else q._current_index
    (true, ⟨items, ci⟩)

/-- Embedding of `FileQueue.move_file` (lines 104-132): guard both
indices, succeed without change when they coincide, otherwise pop the
item, reinsert it at `to_index` and repair the cursor. The `none` arm
of the inner match is unreachable because the guard puts `from_index`
in range. -/
def move_file (q : FileQueue) (from_index to_index : Int) : Bool × FileQueue :=
  if ¬ (0 ≤ from_index ∧ from_index < (q._items.length : Int)) then (false, q)
  else if ¬ (0 ≤ to_index ∧ to_index < (q._items.length : Int)) then (false, q)
  else if from_index = to_index then (true, q)
  else
    match q._items.get? from_index.toNat with
    | none => (false, q)
    | some item =>
        let items := (q._items.eraseIdx from_index.toNat).insertIdx to_index.toNat item
        let ci :=
          if q._current_index = from_index then to_index
          else if from_index < q._current_index ∧ q._current_index ≤ to_index then
            q._current_index - 1
          else if to_index ≤ q._current_index ∧ q._current_index < from_index then
            q._current_index + 1
          else q._current_index
        (true, ⟨items, ci⟩)

/-- Embedding of `FileQueue.get_next_file` (lines 134-143). -/
def get_next_file (q : FileQueue) : Option String × FileQueue :=
  if q.has_next then
    let ci := q._current_index + 1
    ((q._items.get? ci.toNat).map PlaylistItem.file_path, { q with _current_index := ci })
  else
    (none, q)

/-- Embedding of `FileQueue.set_current_index` (lines 145-157). -/
def set_current_index (q : FileQueue) (index : Int) : Bool × FileQueue :=
  if ¬ (0 ≤ index ∧ index < (q._items.length : Int)) then (false, q)
  else (true, { q with _current_index := index })

/-- Embedding of `FileQueue.set_file_state` (lines 159-183): out-of-range
indices fail; when the new state is `PROCESSING` every other
`PROCESSING` item is first demoted to `PENDING`; finally the target
item's state is written. -/
def set_file_state (q : FileQueue) (index : Int) (state : FileState) : Bool × FileQueue :=
  if ¬ (0 ≤ index ∧ index < (q._items.length : Int)) then (false, q)
  else
    let demoted :=
      if state = FileState.PROCESSING then
        q._items.mapIdx fun i it =>
          if i ≠ index.toNat ∧ it.state = FileState.PROCESSING then
            { it with state := FileState.PENDING }
          else it
      else q._items
    (true, ⟨demoted.modify (fun it => { it with state := state }) index.toNat,
            q._current_index⟩)

/-- Embedding of `FileQueue.clear` (lines 185-188). -/
def clear (_q : FileQueue) : FileQueue := ⟨[], -1⟩

end FileQueue

/-- One call against the queue: the operations a client may perform on
a `FileQueue` (`src/models/file_queue.py`). -/
inductive QOp where
  | add (paths : List String)
  | remove (index : Int)
  | move (from_index to_index : Int)
  | setState (index : Int) (state : FileState)
  | setCurrent (index : Int)
  | next
  | clearOp
deriving Repr

/-- Apply one queue operation, discarding the returned value. -/
def applyOp (q : FileQueue) : QOp → FileQueue
  | QOp.add paths => (q.add_files paths).2
  | QOp.remove i => (q.remove_file i).2
  | QOp.move f t => (q.move_file f t).2
  | QOp.setState i s => (q.set_file_state i s).2
  | QOp.setCurrent i => (q.set_current_index i).2
  | QOp.next => (q.get_next_file).2
  | QOp.clearOp => q.clear

/-- Run a sequence of queue operations from a freshly constructed
queue. -/
def runOps (ops : List QOp) : FileQueue :=
  ops.foldl applyOp FileQueue.init

/-! Embedding of `Translator` (`src/services/translator.py`). The two
impure ingredients are passed as parameters:
* `call : String → Option String` models `_call_ollama` (lines 37-68)
  as observed by the caller: `some response` when a request eventually
  succeeds within the bounded retries, `none` when every retry fails
  and `TranslatorError` is raised;
* `parse : String → Nat → Nat → Option String` models
  `_parse_numbered_text` (lines 164-184): from the response text and
  the expected count it yields the dictionary of recovered numbered
  lines, read here as a lookup function. Every theorem below holds for
  an arbitrary `parse`, hence in particular for the regex-based one. -/

/-- Embedding of `TranscriptSegment` (`src/models/data_models.py`,
lines 31-37). -/
structure TranscriptSegment where
  start_time : ℚ
  end_time : ℚ
  text : String
  language : String
deriving DecidableEq, Repr

namespace Translator

/-- Embedding of `Translator.LANG_NAMES` (`src/services/translator.py`,
lines 18-23). -/
def LANG_NAMES : List (String × String) :=
  [("ja", "日语"), ("en", "英语"), ("ko", "韩语"), ("zh", "中文")]

/-- `LANG_NAMES.get(lang, lang)` (lines 129-130). -/
def langName (lang : String) : String := (LANG_NAMES.lookup lang).getD lang

/-- Embedding of `Translator.should_translate` (lines 70-71). -/
def should_translate (source_lang target_lang : String) : Bool :=
  source_lang != target_lang

/-- Numbered input lines of `_translate_single_batch` (lines 121-125):
`"[i+1] text"` for each segment whose stripped text is non-empty. -/
def numberedLines (segments : List TranscriptSegment) : List String :=
  segments.enum.filterMap fun p =>
    let text := p.2.text.trim
    if text = "" then none
    else some ("[" ++ toString (p.1 + 1) ++ "] " ++ text)

/-- Prompt of `_translate_single_batch` (lines 127-136). -/
def promptFor (segments : List TranscriptSegment) (source_lang target_lang : String) :
    String :=
  "将下面的" ++ langName source_lang ++ "翻译成" ++ langName target_lang ++
    "，保留[编号]：\n\n" ++ String.intercalate "\n" (numberedLines segments) ++
    "\n\n翻译结果："

/-- Embedding of `Translator._translate_single_batch` (lines 113-159).
The returned `Nat` counts the `_call_ollama` invocations (exactly one
here). A failed call (`none`, i.e. `TranslatorError`) is caught and
leaves `parsed` empty, exactly as the `except` arm (lines 141-143);
each segment then falls back to `parsed.get(i + 1, seg.text)`
(line 147). The `offset` argument is accepted and unused, as in the
source. -/
def translate_single_batch (call : String → Option String)
    (parse : String → Nat → Nat → Option String)
    (segments : List TranscriptSegment) (source_lang target_lang : String)
    (_offset : Nat) : List TranslationSegment × Nat :=
  let prompt := promptFor segments source_lang target_lang
  let parsed : Nat → Option String :=
    match call prompt with
    | some response => parse response segments.length
    | none => fun _ => none
  (segments.enum.map fun p =>
      { start_time := p.2.start_time
        end_time := p.2.end_time
        original_text := p.2.text
        translated_text := (parsed (p.1 + 1)).getD p.2.text
        source_language := source_lang
        target_language := target_lang },
   1)

/-- Embedding of `BATCH_SIZE` (`src/services/translator.py`, line 99). -/
def BATCH_SIZE : Nat := 10

/-- Structural worker for `chunksOf`: the first argument bounds the
number of remaining elements, so the recursion is structural (and hence
kernel-computable); `chunksOf` always passes the list length. -/
def chunksOfAux (n : Nat) : Nat → List TranscriptSegment → List (List TranscriptSegment)
  | 0, _ => []
  | _, [] => []
  | fuel + 1, x :: xs => (x :: xs.take (n - 1)) :: chunksOfAux n fuel (xs.drop (n - 1))

/-- The consecutive slices `segments[batch_start:batch_start+n]` taken
by the chunking loop of `translate_batch` (lines 102-109). -/
def chunksOf (n : Nat) (l : List TranscriptSegment) : List (List TranscriptSegment) :=
  chunksOfAux n l.length l

/-- Chunking loop of `translate_batch` (lines 100-109): translate each
chunk with its `batch_start` offset and concatenate results (and call
counts) in order. -/
def translateChunks (call : String → Option String)
    (parse : String → Nat → Nat → Option String) (source_lang target_lang : String) :
    List (List TranscriptSegment) → Nat → List TranslationSegment × Nat
  | [], _ => ([], 0)
  | c :: cs, off =>
      let r := translate_single_batch call parse c source_lang target_lang off
      let rest := translateChunks call parse source_lang target_lang cs (off + BATCH_SIZE)
      (r.1 ++ rest.1, r.2 + rest.2)

/-- Embedding of `Translator.translate_batch` (lines 76-111): empty
input short-circuits; a same-language pair echoes every segment without
any external call; otherwise the input is processed in chunks of
`BATCH_SIZE`. The `Nat` component counts `_call_ollama` invocations. -/
def translate_batch (call : String → Option String)
    (parse : String → Nat → Nat → Option String)
    (segments : List TranscriptSegment) (source_lang target_lang : String) :
    List TranslationSegment × Nat :=
  if segments.isEmpty then ([], 0)
  else if ¬ should_translate source_lang target_lang then
    (segments.map fun s =>
        { start_time := s.start_time
          end_time := s.end_time
          original_text := s.text
          translated_text := s.text
          source_language := source_lang
          target_language := target_lang },
     0)
  else
    translateChunks call parse source_lang target_lang (chunksOf BATCH_SIZE segments) 0

/-- Per-chunk result component, for stating how `translate_batch`
decomposes; the `offset` passed by the loop does not influence the
result (it is unused in `_translate_single_batch`). -/
def singleBatchResult (call : String → Option String)
    (parse : String → Nat → Nat → Option String) (source_lang target_lang : String)
    (c : List TranscriptSegment) : List TranslationSegment :=
  (translate_single_batch call parse c source_lang target_lang 0).1

end Translator

/-! Embedding of the orchestration logic of `MainWindow`
(`src/ui/main_window.py`) together with the signal-emitting parts of
`FileQueueWidget` (`src/ui/file_queue.py`). Qt-widget manipulation
(show/hide, styling, progress bar, audio playback) is presentation-only
and omitted; the externally observable actions are recorded as a list
of `Effect`s, in emission order. Signal connections are direct, so
`emit` runs the connected handler synchronously before the emitting
method continues, which is how the handlers are sequenced below. -/

/-- Observable actions of the orchestrator:
* `startWorker p` — `_start_processing` launches a `ProcessingWorker`
  for path `p` (`src/ui/main_window.py`, lines 352-367), which invokes
  the external load/recognition/translation collaborators on `p`;
* `showCached p` — `_load_from_cache` displays the cached result for
  `p` without any collaborator call (lines 303-310);
* `errorDialog msg` — the `QMessageBox.critical` of `_on_error`
  (line 401);
* `infoDialog` — the completion message of `_on_playback_finished`
  (line 453). -/
inductive Effect where
  | startWorker (path : String)
  | showCached (path : String)
  | errorDialog (msg : String)
  | infoDialog
deriving DecidableEq, Repr

/-- Orchestration state: the widget's queue (`FileQueueWidget._queue`),
`MainWindow._subtitle_cache` (a path-keyed dictionary, modelled as an
association list) and `MainWindow._auto_processing`. -/
structure AppState where
  queue : FileQueue
  subtitle_cache : List (String × SubtitleManager)
  auto_processing : Bool
deriving DecidableEq, Repr

namespace AppState

/-- Initial state of `MainWindow.__init__` (`src/ui/main_window.py`,
lines 99-111): empty cache, auto mode off, fresh queue. -/
def init : AppState := ⟨FileQueue.init, [], false⟩

/-- Python `file_path in self._subtitle_cache`. -/
def cached (s : AppState) (p : String) : Bool :=
  (s.subtitle_cache.lookup p).isSome

/-- Python `self._subtitle_cache[file_path] = manager` (dictionary
write: overwrite an existing binding, otherwise append). -/
def cacheStore (s : AppState) (p : String) (m : SubtitleManager) : AppState :=
  if (s.subtitle_cache.lookup p).isSome then
    { s with subtitle_cache :=
        s.subtitle_cache.map fun kv => if kv.1 = p then (p, m) else kv }
  else
    { s with subtitle_cache := s.subtitle_cache ++ [(p, m)] }

/-- Embedding of `MainWindow._start_processing`
(`src/ui/main_window.py`, lines 332-367): stop playback and terminate a
running worker (presentation/thread bookkeeping, no state here), mark
the item at `current_index` as `PROCESSING`, and start a worker for
`file_path`. -/
def start_processing (s : AppState) (file_path : String) : AppState × List Effect :=
  let q := (s.queue.set_file_state s.queue.current_index FileState.PROCESSING).2
  ({ s with queue := q }, [Effect.startWorker file_path])

/-- Embedding of `MainWindow._load_from_cache` (lines 303-310):
display-only, no collaborator invocation, no state change. -/
def load_from_cache (s : AppState) (file_path : String) : AppState × List Effect :=
  (s, [Effect.showCached file_path])

/-- Embedding of `MainWindow._on_file_selected` (lines 290-301). -/
def on_file_selected (s : AppState) (file_path : String) : AppState × List Effect :=
  if s.cached file_path then s.load_from_cache file_path
  else s.start_processing file_path

/-- Loop of `_start_auto_processing` / `_process_next_unprocessed`
(lines 322 and 410): the first `(index, path)` whose path has no cache
entry. -/
def findUnprocessed (cache : List (String × SubtitleManager)) :
    List PlaylistItem → Nat → Option (Nat × String)
  | [], _ => none
  | it :: rest, i =>
      if (cache.lookup it.file_path).isSome then findUnprocessed cache rest (i + 1)
      else some (i, it.file_path)

/-- Embedding of `MainWindow._start_auto_processing` (lines 319-330). -/
def start_auto_processing (s : AppState) : AppState × List Effect :=
  match findUnprocessed s.subtitle_cache s.queue._items 0 with
  | some (i, p) =>
      let s₁ := { s with auto_processing := true }
      let s₂ := { s₁ with queue := (s₁.queue.set_current_index (i : Int)).2 }
      s₂.start_processing p
  | none => ({ s with auto_processing := false }, [])

/-- Embedding of `MainWindow._on_queue_changed` (lines 312-317). -/
def on_queue_changed (s : AppState) (file_paths : List String) : AppState × List Effect :=
  if ¬ s.auto_processing ∧ ¬ file_paths.isEmpty then s.start_auto_processing
  else (s, [])

/-- Embedding of `MainWindow._process_next_unprocessed` (lines 407-417). -/
def process_next_unprocessed (s : AppState) : AppState × List Effect :=
  match findUnprocessed s.subtitle_cache s.queue._items 0 with
  | some (i, p) =>
      let s₁ := { s with queue := (s.queue.set_current_index (i : Int)).2 }
      s₁.start_processing p
  | none => ({ s with auto_processing := false }, [])

/-- Embedding of `MainWindow._on_complete` (lines 376-396): cache the
manager under the current file (when there is one), mark the current
item `READY`, and in auto mode continue with the next unprocessed
file. -/
def on_complete (s : AppState) (manager : SubtitleManager) : AppState × List Effect :=
  let s₁ :=
    match s.queue.current_file with
    | some p => s.cacheStore p manager
    | none => s
  let s₂ := { s₁ with queue := (s₁.queue.set_file_state s₁.queue.current_index FileState.READY).2 }
  if s₂.auto_processing then s₂.process_next_unprocessed
  else (s₂, [])

/-- Embedding of `MainWindow._on_error` (lines 398-405): show the
(single) critical message box, and in auto mode skip to the next
unprocessed file. The handler never touches the cache or any item
state itself. -/
def on_error (s : AppState) (msg : String) : AppState × List Effect :=
  if s.auto_processing then
    let r := s.process_next_unprocessed
    (r.1, Effect.errorDialog msg :: r.2)
  else
    (s, [Effect.errorDialog msg])

/-- Embedding of `MainWindow._on_playback_finished` (lines 434-453):
mark the current item `COMPLETED`, advance the cursor via
`get_next_file`, and start processing the next file if there is one —
without consulting `_subtitle_cache`. -/
def on_playback_finished (s : AppState) : AppState × List Effect :=
  let q₁ := (s.queue.set_file_state s.queue.current_index FileState.COMPLETED).2
  let r := q₁.get_next_file
  let s₁ := { s with queue := r.2 }
  match r.1 with
  | some p => s₁.start_processing p
  | none => (s₁, [Effect.infoDialog])

/-- Embedding of `FileQueueWidget.add_files` (`src/ui/file_queue.py`,
lines 143-188) restricted to its queue/signal behaviour (the warning
dialogs are presentation-only): add through the core queue; when
anything was added emit `queue_changed` (handled by
`_on_queue_changed`) and, when these were the first files, set the
cursor to `0` and emit `file_selected` with the now-current file
(handled by `_on_file_selected`). -/
def widget_add_files (s : AppState) (file_paths : List String) : AppState × List Effect :=
  let r := s.queue.add_files file_paths
  let added := r.1
  let s₁ := { s with queue := r.2 }
  if 0 < added then
    let r₂ := s₁.on_queue_changed (s₁.queue._items.map PlaylistItem.file_path)
    let s₂ := r₂.1
    if s₂.queue.count = added then
      let s₃ := { s₂ with queue := (s₂.queue.set_current_index 0).2 }
      match s₃.queue.current_file with
      | some p =>
          let r₄ := s₃.on_file_selected p
          (r₄.1, r₂.2 ++ r₄.2)
      | none => (s₃, r₂.2)
    else (s₂, r₂.2)
  else (s₁, [])

/-- Embedding of `FileQueueWidget._on_item_clicked`
(`src/ui/file_queue.py`, lines 390-394): clicking a non-current item
moves the cursor there and emits `file_selected` with the new current
file. -/
def widget_click (s : AppState) (index : Int) : AppState × List Effect :=
  if index ≠ s.queue.current_index then
    let r := s.queue.set_current_index index
    if r.1 then
      let s₁ := { s with queue := r.2 }
      match s₁.queue.current_file with
      | some p => s₁.on_file_selected p
      | none => (s₁, [])
    else ({ s with queue := r.2 }, [])
  else (s, [])

end AppState

/-- External stimuli driving the orchestrator: user actions on the
widget and the worker/player events marshalled back to the main
thread. -/
inductive UEvent where
  | addFiles (paths : List String)
  | click (index : Int)
  | workerComplete (manager : SubtitleManager)
  | workerError (msg : String)
  | playbackFinished
deriving Repr

/-- Dispatch one event to its handler. -/
def stepApp (s : AppState) : UEvent → AppState × List Effect
  | UEvent.addFiles paths => s.widget_add_files paths
  | UEvent.click i => s.widget_click i
  | UEvent.workerComplete m => s.on_complete m
  | UEvent.workerError msg => s.on_error msg
  | UEvent.playbackFinished => s.on_playback_finished

/-- Run a sequence of events from a state, accumulating all emitted
effects in order. -/
def runAppFrom (s : AppState) : List UEvent → AppState × List Effect
  | [] => (s, [])
  | e :: es =>
      let r := stepApp s e
      let rest := runAppFrom r.1 es
      (rest.1, r.2 ++ rest.2)

/-- Run a sequence of events from the freshly constructed window. -/
def runApp (events : List UEvent) : AppState × List Effect :=
  runAppFrom AppState.init events

/-! Derived definitions and concrete fixtures used in the statements
below. -/

/-- The item whose state is tested by the single-slot invariant. -/
def isProcessing (it : PlaylistItem) : Bool := it.state == FileState.PROCESSING

/-- Number of `PROCESSING` items in the queue. -/
def procCount (q : FileQueue) : Nat := q._items.countP isProcessing

/-- Queue well-formedness: at most `MAX_FILES` items, and the cursor
lies in `[-1, len - 1]`. -/
def queueWF (q : FileQueue) : Prop :=
  q._items.length ≤ MAX_FILES ∧ -1 ≤ q._current_index ∧
    q._current_index ≤ (q._items.length : Int) - 1

/-- The pointwise guarantee of a single chunk: timing, original text and
language tags come from the corresponding input segment. -/
def Translator.segMatch (source_lang target_lang : String) (s : TranscriptSegment)
    (tr : TranslationSegment) : Prop :=
  tr.start_time = s.start_time ∧ tr.end_time = s.end_time ∧
    tr.original_text = s.text ∧ tr.source_language = source_lang ∧
    tr.target_language = target_lang

/-- Recognises the error-notification effect. -/
def isErrorEffect : Effect → Bool
  | Effect.errorDialog _ => true
  | _ => false

/-! Concrete fixtures used by the witness theorems. -/

/-- A queue holding `a.wav`, `b.wav`, `c.wav` with the cursor on item 0. -/
def qABC : FileQueue := runOps [QOp.add ["a.wav", "b.wav", "c.wav"], QOp.setCurrent 0]

/-- A two-item queue whose first item is `PROCESSING`. -/
def qProc : FileQueue := runOps [QOp.add ["a.wav", "b.wav"], QOp.setState 0 FileState.PROCESSING]

/-- A one-item queue containing `x.wav`. -/
def qDup : FileQueue := (FileQueue.init.add_files ["x.wav"]).2

/-- An external call that always fails (models `TranslatorError` on
every retry). -/
def callNone : String → Option String := fun _ => none

/-- A parser recovering nothing. -/
def parseNone : String → Nat → Nat → Option String := fun _ _ _ => none

/-- A sample transcript segment. -/
def sampleSeg : TranscriptSegment := ⟨0, 1, "hi", "ja"⟩

/-- Eleven copies of `sampleSeg` — more than one `BATCH_SIZE` chunk. -/
def sampleSegs : List TranscriptSegment := List.replicate 11 sampleSeg

/-- The first chunk of `sampleSegs` under `BATCH_SIZE = 10`. -/
def sampleChunk : List TranscriptSegment := List.replicate 10 sampleSeg

/-- The caption-example segments `[(0,2,"a"), (2,4,"b"), (5,7,"c")]`. -/
def exampleSegments : List TranslationSegment :=
  [⟨0, 2, "a", "a", "en", "zh"⟩, ⟨2, 4, "b", "b", "en", "zh"⟩, ⟨5, 7, "c", "c", "en", "zh"⟩]

/-- A subtitle manager over `exampleSegments`. -/
def exampleManager : SubtitleManager := ⟨exampleSegments⟩

/-- Add two files, let both finish processing, click the first item,
then let its playback finish. -/
def cacheTrace : List UEvent :=
  [UEvent.addFiles ["a.wav", "b.wav"], UEvent.workerComplete ⟨[]⟩,
   UEvent.workerComplete ⟨[]⟩, UEvent.click 0, UEvent.playbackFinished]

/-- The prefix of `cacheTrace` after which both files are cached. -/
def bothCachedTrace : List UEvent :=
  [UEvent.addFiles ["a.wav", "b.wav"], UEvent.workerComplete ⟨[]⟩,
   UEvent.workerComplete ⟨[]⟩]

/-- The state after `bothCachedTrace` followed by clicking item 0. -/
def clickedState : AppState :=
  (runApp (bothCachedTrace ++ [UEvent.click 0])).1

/-- Add one file and let its pipeline run fail. -/
def errorTrace : List UEvent :=
  [UEvent.addFiles ["a.wav"], UEvent.workerError "recognition failed"]

/-! General list lemmas used by the invariant proofs. -/

theorem countP_eraseIdx_le {α : Type} (p : α → Bool) (l : List α) (i : Nat) :
    (l.eraseIdx i).countP p ≤ l.countP p := by
  induction l generalizing i with
  | nil => simp [List.eraseIdx]
  | cons x xs ih =>
      cases i with
      | zero => simp [List.eraseIdx_cons_zero, List.countP_cons]
      | succ n =>
          simp only [List.eraseIdx_cons_succ, List.countP_cons]
          have := ih n
          omega

theorem countP_eraseIdx_eq {α : Type} (p : α → Bool) (l : List α) (i : Nat)
    (h : i < l.length) :
    l.countP p = (l.eraseIdx i).countP p + (if p l[i] then 1 else 0) := by
  induction l generalizing i with
  | nil => simp at h
  | cons x xs ih =>
      cases i with
      | zero => simp [List.eraseIdx_cons_zero, List.countP_cons]
      | succ n =>
          simp only [List.eraseIdx_cons_succ, List.countP_cons, List.getElem_cons_succ]
          have := ih n (by simpa using h)
          omega

theorem countP_insertIdx {α : Type} (p : α → Bool) (l : List α) (i : Nat) (a : α)
    (h : i ≤ l.length) :
    (l.insertIdx i a).countP p = l.countP p + (if p a then 1 else 0) := by
  induction i generalizing l with
  | zero => simp [List.insertIdx_zero, List.countP_cons]
  | succ n ih =>
      cases l with
      | nil => simp at h
      | cons x xs =>
          simp only [List.insertIdx_succ_cons, List.countP_cons]
          have := ih xs (by simpa using h)
          omega

theorem countP_modify_le_of_false {α : Type} (p : α → Bool) (f : α → α) (n : Nat)
    (l : List α) (hf : ∀ x, p (f x) = false) :
    (l.modify f n).countP p ≤ l.countP p := by
  induction l generalizing n with
  | nil => simp [List.modify_nil]
  | cons x xs ih =>
      cases n with
      | zero => simp [List.modify_zero_cons, List.countP_cons, hf x]
      | succ m =>
          simp only [List.modify_succ_cons, List.countP_cons]
          have := ih m
          omega

theorem countP_le_one_of_unique {α : Type} (p : α → Bool) (l : List α) (i : Nat)
    (h : ∀ j (hj : j < l.length), p l[j] = true → j = i) :
    l.countP p ≤ 1 := by
  induction l generalizing i with
  | nil => simp
  | cons x xs ih =>
      by_cases hx : p x = true
      · have hi0 : (0 : Nat) = i := h 0 (by simp) (by simpa using hx)
        have hxs : xs.countP p = 0 := by
          rw [List.countP_eq_zero]
          intro a ha
          obtain ⟨n, hn, rfl⟩ := List.mem_iff_getElem.mp ha
          intro hpa
          have := h (n + 1) (by simpa using Nat.succ_lt_succ hn)
            (by simpa using hpa)
          omega
        simp [List.countP_cons, hx, hxs]
      · have hx' : p x = false := by simpa using hx
        have hxs : xs.countP p ≤ 1 := by
          refine ih (i - 1) ?_
          intro j hj hpj
          have hji : j + 1 = i := h (j + 1) (by simpa using Nat.succ_lt_succ hj)
            (by simpa using hpj)
          omega
        simp only [List.countP_cons, hx', if_neg Bool.false_ne_true]
        omega

/-! Lemmas about `FileQueue.set_file_state` and the single-`PROCESSING`
invariant. -/

theorem set_file_state_items_length (q : FileQueue) (i : Int) (st : FileState) :
    ((q.set_file_state i st).2)._items.length = q._items.length := by
  by_cases hr : 0 ≤ i ∧ i < (q._items.length : Int)
  · by_cases hs : st = FileState.PROCESSING
    · simp [FileQueue.set_file_state, hr, hs, List.length_modify, List.length_mapIdx]
    · simp [FileQueue.set_file_state, hr, hs, List.length_modify]
  · simp [FileQueue.set_file_state, hr]

theorem set_file_state_fst (q : FileQueue) (i : Int) (st : FileState) :
    (q.set_file_state i st).1 = true ↔ 0 ≤ i ∧ i < (q._items.length : Int) := by
  by_cases hr : 0 ≤ i ∧ i < (q._items.length : Int) <;>
    simp [FileQueue.set_file_state, hr]

theorem set_file_state_getElem_self (q : FileQueue) (i : Int) (st : FileState)
    (hr : 0 ≤ i ∧ i < (q._items.length : Int)) :
    (((q.set_file_state i st).2)._items)[i.toNat]? =
      q._items[i.toNat]?.map (fun it => { it with state := st }) := by
  have hi : i.toNat < q._items.length := by omega
  by_cases hs : st = FileState.PROCESSING
  · simp only [FileQueue.set_file_state, hr, not_true_eq_false, if_false, hs, if_true,
      List.getElem?_modify, List.getElem?_mapIdx, List.getElem?_eq_getElem hi]
    simp
    exact ⟨q._items[i.toNat], List.getElem?_eq_getElem hi, rfl, rfl, rfl⟩
  · simp only [FileQueue.set_file_state, hr, not_true_eq_false, if_false, if_neg hs,
      List.getElem?_modify, List.getElem?_eq_getElem hi]
    simp
    exact ⟨q._items[i.toNat], List.getElem?_eq_getElem hi, rfl, rfl, rfl⟩

theorem set_file_state_getElem_other (q : FileQueue) (i : Int) (st : FileState)
    (hr : 0 ≤ i ∧ i < (q._items.length : Int)) (j : Nat) (hne : j ≠ i.toNat) :
    (((q.set_file_state i st).2)._items)[j]? =
      q._items[j]?.map (fun it =>
        if st = FileState.PROCESSING ∧ it.state = FileState.PROCESSING then
          { it with state := FileState.PENDING }
        else it) := by
  have hne' : ¬ (i.toNat = j) := fun h => hne h.symm
  by_cases hj : j < q._items.length
  · by_cases hs : st = FileState.PROCESSING
    · simp only [FileQueue.set_file_state, hr, not_true_eq_false, if_false, hs, if_true,
        List.getElem?_modify, List.getElem?_mapIdx, List.getElem?_eq_getElem hj]
      by_cases hp : q._items[j].state = FileState.PROCESSING
      · simp [hne, hne', hp]
        exact ⟨q._items[j], List.getElem?_eq_getElem hj, by simp [hp]⟩
      · simp [hne, hne', hp]
        exact ⟨q._items[j], List.getElem?_eq_getElem hj, by simp [hp]⟩
    · simp only [FileQueue.set_file_state, hr, not_true_eq_false, if_false, if_neg hs,
        List.getElem?_modify, List.getElem?_eq_getElem hj]
      simp [hne', hs]
  · have h₁ : q._items[j]? = none := List.getElem?_eq_none (by omega)
    have h₂ : (((q.set_file_state i st).2)._items)[j]? = none :=
      List.getElem?_eq_none (by rw [set_file_state_items_length]; omega)
    simp [h₁, h₂]

theorem procCount_set_file_state (q : FileQueue) (i : Int) (st : FileState)
    (h : procCount q ≤ 1) : procCount ((q.set_file_state i st).2) ≤ 1 := by
  by_cases hr : 0 ≤ i ∧ i < (q._items.length : Int)
  · by_cases hs : st = FileState.PROCESSING
    · refine countP_le_one_of_unique isProcessing _ i.toNat ?_
      intro j hj hpj
      by_contra hne
      have hjq : j < q._items.length := by
        rw [← set_file_state_items_length q i st]; exact hj
      have hother := set_file_state_getElem_other q i st hr j hne
      rw [List.getElem?_eq_getElem hj, List.getElem?_eq_getElem hjq] at hother
      have hval : ((q.set_file_state i st).2)._items[j] =
          (if st = FileState.PROCESSING ∧ (q._items[j]).state = FileState.PROCESSING then
            { q._items[j] with state := FileState.PENDING }
          else q._items[j]) := by
        simpa using hother
      by_cases hp : (q._items[j]).state = FileState.PROCESSING
      · rw [hval, if_pos ⟨hs, hp⟩] at hpj
        simp [isProcessing] at hpj
      · rw [hval, if_neg (fun hc => hp hc.2)] at hpj
        simp [isProcessing] at hpj
        exact hp hpj
    · have hc : ∀ x : PlaylistItem, isProcessing { x with state := st } = false := by
        intro x
        simpa [isProcessing] using hs
      have hle : procCount ((q.set_file_state i st).2) ≤ procCount q := by
        unfold procCount
        simp only [FileQueue.set_file_state, hr, not_true_eq_false, if_false, if_neg hs]
        exact countP_modify_le_of_false _ _ _ _ hc
      omega
  · simpa [FileQueue.set_file_state, hr, procCount] using h

theorem set_file_state_current_index (q : FileQueue) (i : Int) (st : FileState) :
    ((q.set_file_state i st).2)._current_index = q._current_index := by
  by_cases hr : 0 ≤ i ∧ i < (q._items.length : Int) <;>
    simp [FileQueue.set_file_state, hr]

theorem procCount_addFilesLoop (paths : List String) (q : FileQueue) (added : Nat) :
    procCount (FileQueue.addFilesLoop q paths added).2 = procCount q := by
  induction paths generalizing q added with
  | nil => rfl
  | cons p rest ih =>
      by_cases hfull : q.is_full
      · simp [FileQueue.addFilesLoop, hfull]
      · by_cases hv : FileQueue._is_valid_format p
        · simp only [FileQueue.addFilesLoop, hfull, Bool.false_eq_true, if_false, hv,
            not_true_eq_false]
          rw [ih]
          unfold procCount
          simp [List.countP_append, List.countP_cons, isProcessing]
        · simp only [FileQueue.addFilesLoop, hfull, Bool.false_eq_true, if_false]
          rw [if_pos (by simpa using hv)]
          exact ih q added

theorem remove_file_unchanged (q : FileQueue) (i : Int)
    (hr : ¬ (0 ≤ i ∧ i < (q._items.length : Int))) : (q.remove_file i).2 = q := by
  unfold FileQueue.remove_file
  rw [if_pos hr]

theorem move_file_unchanged₁ (q : FileQueue) (f t : Int)
    (h1 : ¬ (0 ≤ f ∧ f < (q._items.length : Int))) : (q.move_file f t).2 = q := by
  unfold FileQueue.move_file
  rw [if_pos h1]

theorem move_file_unchanged₂ (q : FileQueue) (f t : Int)
    (h2 : ¬ (0 ≤ t ∧ t < (q._items.length : Int))) : (q.move_file f t).2 = q := by
  unfold FileQueue.move_file
  by_cases h1 : 0 ≤ f ∧ f < (q._items.length : Int)
  · rw [if_neg (not_not_intro h1), if_pos h2]
  · rw [if_pos h1]

theorem move_file_self (q : FileQueue) (f t : Int)
    (h1 : 0 ≤ f ∧ f < (q._items.length : Int))
    (h2 : 0 ≤ t ∧ t < (q._items.length : Int)) (h3 : f = t) :
    (q.move_file f t).2 = q := by
  unfold FileQueue.move_file
  rw [if_neg (not_not_intro h1), if_neg (not_not_intro h2), if_pos h3]

theorem move_file_success (q : FileQueue) (f t : Int) (item : PlaylistItem)
    (h1 : 0 ≤ f ∧ f < (q._items.length : Int))
    (h2 : 0 ≤ t ∧ t < (q._items.length : Int)) (h3 : ¬ f = t)
    (hm : q._items.get? f.toNat = some item) :
    q.move_file f t =
      (true,
        ⟨(q._items.eraseIdx f.toNat).insertIdx t.toNat item,
          if q._current_index = f then t
          else if f < q._current_index ∧ q._current_index ≤ t then q._current_index - 1
          else if t ≤ q._current_index ∧ q._current_index < f then q._current_index + 1
          else q._current_index⟩) := by
  unfold FileQueue.move_file
  rw [if_neg (not_not_intro h1), if_neg (not_not_intro h2), if_neg h3, hm]

theorem set_current_index_unchanged (q : FileQueue) (i : Int)
    (hr : ¬ (0 ≤ i ∧ i < (q._items.length : Int))) : (q.set_current_index i).2 = q := by
  unfold FileQueue.set_current_index
  rw [if_pos hr]

theorem set_file_state_unchanged (q : FileQueue) (i : Int) (st : FileState)
    (hr : ¬ (0 ≤ i ∧ i < (q._items.length : Int))) : (q.set_file_state i st).2 = q := by
  unfold FileQueue.set_file_state
  rw [if_pos hr]

theorem procCount_applyOp (q : FileQueue) (op : QOp) (h : procCount q ≤ 1) :
    procCount (applyOp q op) ≤ 1 := by
  cases op with
  | add paths =>
      show procCount (q.add_files paths).2 ≤ 1
      unfold FileQueue.add_files
      rw [procCount_addFilesLoop]
      exact h
  | remove i =>
      show procCount (q.remove_file i).2 ≤ 1
      by_cases hr : 0 ≤ i ∧ i < (q._items.length : Int)
      · unfold FileQueue.remove_file
        rw [if_neg (not_not_intro hr)]
        exact le_trans (countP_eraseIdx_le isProcessing q._items i.toNat) h
      · rw [remove_file_unchanged q i hr]; exact h
  | move f t =>
      show procCount (q.move_file f t).2 ≤ 1
      by_cases h1 : 0 ≤ f ∧ f < (q._items.length : Int)
      · by_cases h2 : 0 ≤ t ∧ t < (q._items.length : Int)
        · by_cases h3 : f = t
          · rw [move_file_self q f t h1 h2 h3]; exact h
          · cases hm : q._items.get? f.toNat with
            | none =>
                exfalso
                have hf : f.toNat < q._items.length := by omega
                rw [List.get?_eq_getElem?, List.getElem?_eq_getElem hf] at hm
                exact Option.noConfusion hm
            | some item =>
                have hf : f.toNat < q._items.length := by omega
                have hitem : item = q._items[f.toNat] := by
                  have hm' := hm
                  rw [List.get?_eq_getElem?, List.getElem?_eq_getElem hf] at hm'
                  exact (Option.some_injective _ hm').symm
                have hlen : (q._items.eraseIdx f.toNat).length = q._items.length - 1 := by
                  rw [List.length_eraseIdx]
                  simp [hf]
                have ht : t.toNat ≤ (q._items.eraseIdx f.toNat).length := by omega
                have hins := countP_insertIdx isProcessing (q._items.eraseIdx f.toNat)
                  t.toNat item ht
                have hera := countP_eraseIdx_eq isProcessing q._items f.toNat hf
                rw [move_file_success q f t item h1 h2 h3 hm]
                unfold procCount at *
                rw [← hitem] at hera
                dsimp only
                omega
        · rw [move_file_unchanged₂ q f t h2]; exact h
      · rw [move_file_unchanged₁ q f t h1]; exact h
  | setState i st => exact procCount_set_file_state q i st h
  | setCurrent i =>
      show procCount (q.set_current_index i).2 ≤ 1
      by_cases hr : 0 ≤ i ∧ i < (q._items.length : Int)
      · unfold FileQueue.set_current_index
        rw [if_neg (not_not_intro hr)]
        exact h
      · rw [set_current_index_unchanged q i hr]; exact h
  | next =>
      show procCount (q.get_next_file).2 ≤ 1
      unfold FileQueue.get_next_file
      by_cases hn : q.has_next
      · rw [if_pos hn]; exact h
      · rw [if_neg hn]; exact h
  | clearOp => simp [applyOp, FileQueue.clear, procCount]

theorem procCount_foldl (ops : List QOp) :
    ∀ q : FileQueue, procCount q ≤ 1 → procCount (ops.foldl applyOp q) ≤ 1 := by
  induction ops with
  | nil => intro q h; simpa using h
  | cons op rest ih =>
      intro q h
      exact ih (applyOp q op) (procCount_applyOp q op h)

/-! The capacity/cursor well-formedness invariant of the queue. -/

theorem queueWF_addFilesLoop (paths : List String) (q : FileQueue) (added : Nat)
    (h : queueWF q) : queueWF (FileQueue.addFilesLoop q paths added).2 := by
  induction paths generalizing q added with
  | nil => exact h
  | cons p rest ih =>
      by_cases hfull : q.is_full
      · simpa [FileQueue.addFilesLoop, hfull] using h
      · by_cases hv : FileQueue._is_valid_format p
        · simp only [FileQueue.addFilesLoop, hfull, Bool.false_eq_true, if_false, hv,
            not_true_eq_false]
          refine ih _ _ ?_
          have hlt : q._items.length < MAX_FILES := by
            by_contra hge
            exact hfull (by simpa [FileQueue.is_full] using Nat.le_of_not_lt hge)
          obtain ⟨hc, hlo, hhi⟩ := h
          refine ⟨by simpa using hlt, hlo, ?_⟩
          simp only [List.length_append, List.length_cons, List.length_nil]
          push_cast
          omega
        · simp only [FileQueue.addFilesLoop, hfull, Bool.false_eq_true, if_false]
          rw [if_pos (by simpa using hv)]
          exact ih q added h

theorem queueWF_applyOp (q : FileQueue) (op : QOp) (h : queueWF q) :
    queueWF (applyOp q op) := by
  obtain ⟨hc, hlo, hhi⟩ := h
  cases op with
  | add paths => exact queueWF_addFilesLoop paths q 0 ⟨hc, hlo, hhi⟩
  | remove i =>
      show queueWF (q.remove_file i).2
      by_cases hr : 0 ≤ i ∧ i < (q._items.length : Int)
      · have hf : i.toNat < q._items.length := by omega
        have hlen : (q._items.eraseIdx i.toNat).length = q._items.length - 1 := by
          rw [List.length_eraseIdx]; simp [hf]
        unfold FileQueue.remove_file
        rw [if_neg (not_not_intro hr)]
        unfold queueWF
        dsimp only
        rw [hlen]
        refine ⟨le_trans (Nat.sub_le _ _) hc, ?_, ?_⟩
        · split
          · omega
          · split <;> omega
        · split
          · omega
          · split <;> omega
      · rw [remove_file_unchanged q i hr]; exact ⟨hc, hlo, hhi⟩
  | move f t =>
      show queueWF (q.move_file f t).2
      by_cases h1 : 0 ≤ f ∧ f < (q._items.length : Int)
      · by_cases h2 : 0 ≤ t ∧ t < (q._items.length : Int)
        · by_cases h3 : f = t
          · rw [move_file_self q f t h1 h2 h3]; exact ⟨hc, hlo, hhi⟩
          · cases hm : q._items.get? f.toNat with
            | none =>
                exfalso
                have hf : f.toNat < q._items.length := by omega
                rw [List.get?_eq_getElem?, List.getElem?_eq_getElem hf] at hm
                exact Option.noConfusion hm
            | some item =>
                have hf : f.toNat < q._items.length := by omega
                have hlen : (q._items.eraseIdx f.toNat).length = q._items.length - 1 := by
                  rw [List.length_eraseIdx]; simp [hf]
                have ht : t.toNat ≤ (q._items.eraseIdx f.toNat).length := by omega
                have hlen2 := List.length_insertIdx t.toNat (q._items.eraseIdx f.toNat)
                  (a := item) ht
                rw [move_file_success q f t item h1 h2 h3 hm]
                unfold queueWF
                dsimp only
                rw [hlen2, hlen]
                refine ⟨by omega, ?_, ?_⟩
                · split
                  · omega
                  · split
                    · omega
                    · split <;> omega
                · split
                  · omega
                  · split
                    · omega
                    · split <;> omega
        · rw [move_file_unchanged₂ q f t h2]; exact ⟨hc, hlo, hhi⟩
      · rw [move_file_unchanged₁ q f t h1]; exact ⟨hc, hlo, hhi⟩
  | setState i st =>
      refine ⟨?_, ?_, ?_⟩
      · show ((q.set_file_state i st).2)._items.length ≤ MAX_FILES
        rw [set_file_state_items_length]; exact hc
      · show -1 ≤ ((q.set_file_state i st).2)._current_index
        rw [set_file_state_current_index]; exact hlo
      · show ((q.set_file_state i st).2)._current_index ≤
          (((q.set_file_state i st).2)._items.length : Int) - 1
        rw [set_file_state_current_index, set_file_state_items_length]; exact hhi
  | setCurrent i =>
      show queueWF (q.set_current_index i).2
      by_cases hr : 0 ≤ i ∧ i < (q._items.length : Int)
      · unfold FileQueue.set_current_index
        rw [if_neg (not_not_intro hr)]
        refine ⟨hc, ?_, ?_⟩
        · show (-1 : Int) ≤ i
          omega
        · show i ≤ (q._items.length : Int) - 1
          omega
      · rw [set_current_index_unchanged q i hr]; exact ⟨hc, hlo, hhi⟩
  | next =>
      show queueWF (q.get_next_file).2
      unfold FileQueue.get_next_file
      by_cases hn : q.has_next
      · have hn' : q._current_index < (q._items.length : Int) - 1 := by
          simpa [FileQueue.has_next] using hn
        rw [if_pos hn]
        refine ⟨hc, ?_, ?_⟩
        · show (-1 : Int) ≤ q._current_index + 1
          omega
        · show q._current_index + 1 ≤ (q._items.length : Int) - 1
          omega
      · rw [if_neg hn]
        exact ⟨hc, hlo, hhi⟩
  | clearOp =>
      simp [applyOp, FileQueue.clear, queueWF]

theorem queueWF_foldl (ops : List QOp) :
    ∀ q : FileQueue, queueWF q → queueWF (ops.foldl applyOp q) := by
  induction ops with
  | nil => intro q h; simpa using h
  | cons op rest ih => intro q h; exact ih (applyOp q op) (queueWF_applyOp q op h)


/-! Lemmas about the caption-index scan. -/

theorem getCurrentIndexLoop_no_match (t : ℚ) (l : List TranslationSegment) (k : Nat)
    (h : ∀ s ∈ l, ¬ (s.start_time ≤ t ∧ t < s.end_time)) :
    getCurrentIndexLoop t l k = -1 := by
  induction l generalizing k with
  | nil => rfl
  | cons s rest ih =>
      have hs := h s (by simp)
      simp only [getCurrentIndexLoop, if_neg hs]
      exact ih (k + 1) (fun x hx => h x (by simp [hx]))

theorem getCurrentIndexLoop_first_match (t : ℚ) :
    ∀ (l : List TranslationSegment) (i : Nat) (hi : i < l.length),
      (l[i].start_time ≤ t ∧ t < l[i].end_time) →
      (∀ j (hj : j < i), ¬ ((l.get ⟨j, by omega⟩).start_time ≤ t ∧ t < (l.get ⟨j, by omega⟩).end_time)) →
      ∀ k, getCurrentIndexLoop t l k = (k : Int) + (i : Int) := by
  intro l
  induction l with
  | nil => intro i hi; simp at hi
  | cons s rest ih =>
      intro i hi hmatch hbefore k
      cases i with
      | zero =>
          simp only [List.getElem_cons_zero] at hmatch
          simp [getCurrentIndexLoop, hmatch]
      | succ n =>
          have hs : ¬ (s.start_time ≤ t ∧ t < s.end_time) := by
            have := hbefore 0 (Nat.succ_pos n)
            simpa using this
          simp only [getCurrentIndexLoop, if_neg hs]
          have hrec := ih n (by simpa using hi)
            (by simpa using hmatch)
            (fun j hj => by
              have := hbefore (j + 1) (Nat.succ_lt_succ hj)
              simpa using this)
            (k + 1)
          rw [hrec]
          push_cast
          ring

/-! Lemmas about the batch translator. -/

namespace Translator

theorem chunksOfAux_fuel (n : Nat) :
    ∀ (fuel fuel' : Nat) (l : List TranscriptSegment), l.length ≤ fuel →
      l.length ≤ fuel' → chunksOfAux n fuel l = chunksOfAux n fuel' l := by
  intro fuel
  induction fuel with
  | zero =>
      intro fuel' l hl hl'
      have : l = [] := List.length_eq_zero.mp (Nat.le_zero.mp hl)
      subst this
      cases fuel' <;> rfl
  | succ g ih =>
      intro fuel' l hl hl'
      cases l with
      | nil => cases fuel' <;> rfl
      | cons x xs =>
          cases fuel' with
          | zero => simp at hl'
          | succ g₂ =>
              show (x :: xs.take (n - 1)) :: chunksOfAux n g (xs.drop (n - 1)) =
                (x :: xs.take (n - 1)) :: chunksOfAux n g₂ (xs.drop (n - 1))
              have hd : (xs.drop (n - 1)).length ≤ xs.length := by
                simp [List.length_drop]
              simp only [List.length_cons] at hl hl'
              rw [ih g₂ (xs.drop (n - 1)) (by omega) (by omega)]

theorem chunksOf_nil (n : Nat) : chunksOf n [] = [] := rfl

theorem chunksOf_cons (n : Nat) (x : TranscriptSegment) (xs : List TranscriptSegment) :
    chunksOf n (x :: xs) =
      (x :: xs.take (n - 1)) :: chunksOf n (xs.drop (n - 1)) := by
  show chunksOfAux n (xs.length + 1) (x :: xs) = _
  show (x :: xs.take (n - 1)) :: chunksOfAux n xs.length (xs.drop (n - 1)) = _
  unfold chunksOf
  rw [chunksOfAux_fuel n xs.length (xs.drop (n - 1)).length (xs.drop (n - 1))
    (by simp [List.length_drop]) le_rfl]

theorem forall₂_enumFrom_map {R : TranscriptSegment → TranslationSegment → Prop}
    (f : Nat × TranscriptSegment → TranslationSegment)
    (hf : ∀ i a, R a (f (i, a))) :
    ∀ (c : List TranscriptSegment) (k : Nat), List.Forall₂ R c ((List.enumFrom k c).map f) := by
  intro c
  induction c with
  | nil => intro k; simp
  | cons x xs ih =>
      intro k
      rw [List.enumFrom_cons, List.map_cons, List.forall₂_cons]
      exact ⟨hf k x, ih (k + 1)⟩

theorem single_batch_fields (call : String → Option String)
    (parse : String → Nat → Nat → Option String) (c : List TranscriptSegment)
    (source_lang target_lang : String) (off : Nat) :
    List.Forall₂ (segMatch source_lang target_lang) c
      ((translate_single_batch call parse c source_lang target_lang off).1) := by
  show List.Forall₂ _ c ((List.enumFrom 0 c).map _)
  refine forall₂_enumFrom_map _ ?_ c 0
  intro i a
  exact ⟨rfl, rfl, rfl, rfl, rfl⟩

theorem single_batch_echo (call : String → Option String)
    (parse : String → Nat → Nat → Option String) (c : List TranscriptSegment)
    (source_lang target_lang : String) (off : Nat)
    (hfail : call (promptFor c source_lang target_lang) = none) :
    List.Forall₂ (fun s tr => tr.translated_text = s.text) c
      ((translate_single_batch call parse c source_lang target_lang off).1) := by
  unfold translate_single_batch
  dsimp only
  rw [hfail]
  show List.Forall₂ _ c ((List.enumFrom 0 c).map _)
  refine forall₂_enumFrom_map _ ?_ c 0
  intro i a
  rfl

theorem translateChunks_forall₂ (call : String → Option String)
    (parse : String → Nat → Nat → Option String) (source_lang target_lang : String)
    {R : TranscriptSegment → TranslationSegment → Prop}
    (hR : ∀ c off, List.Forall₂ R c
      ((translate_single_batch call parse c source_lang target_lang off).1)) :
    ∀ (fuel : Nat) (l : List TranscriptSegment), l.length ≤ fuel → ∀ off : Nat,
      List.Forall₂ R l
        ((translateChunks call parse source_lang target_lang
          (chunksOf BATCH_SIZE l) off).1) := by
  intro fuel
  induction fuel with
  | zero =>
      intro l hl off
      have : l = [] := List.length_eq_zero.mp (Nat.le_zero.mp hl)
      subst this
      simp [chunksOf_nil, translateChunks]
  | succ n ih =>
      intro l hl off
      cases l with
      | nil => simp [chunksOf_nil, translateChunks]
      | cons x xs =>
          rw [chunksOf_cons, translateChunks]
          have h1 := hR (x :: xs.take (BATCH_SIZE - 1)) off
          have h2 := ih (xs.drop (BATCH_SIZE - 1))
            (by simp only [List.length_drop, List.length_cons] at hl ⊢; omega)
            (off + BATCH_SIZE)
          have := List.rel_append h1 h2
          simpa [List.cons_append, List.take_append_drop] using this

theorem translateChunks_fst_eq (call : String → Option String)
    (parse : String → Nat → Nat → Option String) (source_lang target_lang : String) :
    ∀ (cs : List (List TranscriptSegment)) (off : Nat),
      (translateChunks call parse source_lang target_lang cs off).1 =
        (cs.map (singleBatchResult call parse source_lang target_lang)).flatten := by
  intro cs
  induction cs with
  | nil => intro off; simp [translateChunks]
  | cons c rest ih =>
      intro off
      rw [translateChunks]
      simp only [List.map_cons, List.flatten]
      rw [ih (off + BATCH_SIZE)]
      rfl

theorem translate_batch_eq_chunks (call : String → Option String)
    (parse : String → Nat → Nat → Option String) (segments : List TranscriptSegment)
    (source_lang target_lang : String)
    (h : should_translate source_lang target_lang = true) :
    translate_batch call parse segments source_lang target_lang =
      translateChunks call parse source_lang target_lang
        (chunksOf BATCH_SIZE segments) 0 := by
  cases segments with
  | nil => simp [translate_batch, chunksOf, translateChunks]
  | cons x xs => simp [translate_batch, h]

end Translator

/-! Lemmas about the orchestrator handlers. -/

namespace AppState

theorem on_file_selected_cached (s : AppState) (p : String) (h : s.cached p = true) :
    s.on_file_selected p = (s, [Effect.showCached p]) := by
  simp [on_file_selected, h, load_from_cache]

theorem on_file_selected_uncached (s : AppState) (p : String) (h : s.cached p = false) :
    s.on_file_selected p = s.start_processing p := by
  simp [on_file_selected, h]

theorem on_playback_finished_starts (s : AppState) (p : String)
    (h : (((s.queue.set_file_state s.queue.current_index
        FileState.COMPLETED).2).get_next_file).1 = some p) :
    (s.on_playback_finished).2 = [Effect.startWorker p] := by
  unfold on_playback_finished
  dsimp only
  rw [h]
  rfl

theorem process_next_subtitle_cache (s : AppState) :
    (s.process_next_unprocessed).1.subtitle_cache = s.subtitle_cache := by
  unfold process_next_unprocessed
  cases h : findUnprocessed s.subtitle_cache s.queue._items 0 with
  | none => rfl
  | some pr =>
      obtain ⟨i, p⟩ := pr
      simp [start_processing]

theorem process_next_no_error (s : AppState) :
    (s.process_next_unprocessed).2.countP isErrorEffect = 0 := by
  unfold process_next_unprocessed
  cases h : findUnprocessed s.subtitle_cache s.queue._items 0 with
  | none => rfl
  | some pr =>
      obtain ⟨i, p⟩ := pr
      simp [start_processing, isErrorEffect]

theorem start_processing_effects (s : AppState) (p : String) :
    (s.start_processing p).2 = [Effect.startWorker p] := rfl

end AppState

/-! Claim theorems. -/

/-- C1: starting from a freshly constructed queue, every sequence of
queue operations leaves at most one item in state `PROCESSING`; and a
successful `set_file_state(index, PROCESSING)` atomically writes
`PROCESSING` at `index` while demoting every other item that was
`PROCESSING` back to `PENDING` (all other items are untouched). -/
theorem single_processing_slot :
    (∀ ops : List QOp, procCount (runOps ops) ≤ 1) ∧
    (∀ (q : FileQueue) (i : Int),
      (q.set_file_state i FileState.PROCESSING).1 = true →
      ((((q.set_file_state i FileState.PROCESSING).2)._items)[i.toNat]? =
        q._items[i.toNat]?.map (fun it => { it with state := FileState.PROCESSING })) ∧
      (∀ j : Nat, j ≠ i.toNat →
        (((q.set_file_state i FileState.PROCESSING).2)._items)[j]? =
          q._items[j]?.map (fun it =>
            if it.state = FileState.PROCESSING then { it with state := FileState.PENDING }
            else it))) := by
  constructor
  · intro ops
    unfold runOps
    exact procCount_foldl ops FileQueue.init (by decide)
  · intro q i hsucc
    have hr : 0 ≤ i ∧ i < (q._items.length : Int) := (set_file_state_fst q i _).mp hsucc
    refine ⟨set_file_state_getElem_self q i _ hr, ?_⟩
    intro j hj
    rw [set_file_state_getElem_other q i FileState.PROCESSING hr j hj]
    cases q._items[j]? <;> simp

/-- Witness for C1 on a concrete two-item queue: setting item 1 to
`PROCESSING` succeeds, makes item 1 `PROCESSING`, and demotes item 0
(previously `PROCESSING`) to `PENDING`. -/
theorem single_processing_slot_witness :
    procCount (runOps [QOp.add ["a.wav", "b.wav"], QOp.setState 0 FileState.PROCESSING]) ≤ 1 ∧
    ((qProc.set_file_state 1 FileState.PROCESSING).2)._items[1]? =
      qProc._items[1]?.map (fun it => { it with state := FileState.PROCESSING }) ∧
    ((qProc.set_file_state 1 FileState.PROCESSING).2)._items[0]? =
      qProc._items[0]?.map (fun it =>
        if it.state = FileState.PROCESSING then { it with state := FileState.PENDING }
        else it) := by
  refine ⟨single_processing_slot.1 [QOp.add ["a.wav", "b.wav"],
    QOp.setState 0 FileState.PROCESSING], ?_, ?_⟩
  · exact (single_processing_slot.2 qProc 1 (by decide)).1
  · exact (single_processing_slot.2 qProc 1 (by decide)).2 0 (by decide)

/-- C2: every sequence of queue operations from a fresh queue keeps the
length at most `MAX_FILES = 5` and the cursor inside `[-1, len - 1]`
(so `-1` exactly when permitted, including on the empty queue). -/
theorem queue_bounds_invariant (ops : List QOp) :
    (runOps ops)._items.length ≤ MAX_FILES ∧
    -1 ≤ (runOps ops)._current_index ∧
    (runOps ops)._current_index ≤ ((runOps ops)._items.length : Int) - 1 :=
  queueWF_foldl ops FileQueue.init (by refine ⟨by decide, by decide, by decide⟩)

/-- C3: on a segment list that is ordered by start time and
non-overlapping, `get_current_index t` returns the unique index `i`
with `start_time ≤ t < end_time` whenever one exists, and `-1`
otherwise (before the first segment, in a gap, or at/after the end of
the last segment). -/
theorem get_current_index_spec (m : SubtitleManager)
    (hsorted : m._segments.Pairwise (fun a b => a.start_time ≤ b.start_time))
    (hdisj : m._segments.Pairwise
      (fun a b => a.end_time ≤ b.start_time ∨ b.end_time ≤ a.start_time))
    (t : ℚ) :
    (∀ i (hi : i < m._segments.length),
      ((m._segments.get ⟨i, hi⟩).start_time ≤ t ∧ t < (m._segments.get ⟨i, hi⟩).end_time) →
      m.get_current_index t = (i : Int)) ∧
    ((∀ i (hi : i < m._segments.length),
      ¬ ((m._segments.get ⟨i, hi⟩).start_time ≤ t ∧ t < (m._segments.get ⟨i, hi⟩).end_time)) →
      m.get_current_index t = -1) := by
  constructor
  · intro i hi hmatch
    have hne : m._segments.isEmpty = false := by
      cases hseg : m._segments with
      | nil => rw [hseg] at hi; simp at hi
      | cons a l => simp [hseg]
    have hbefore : ∀ j (hj : j < i),
        ¬ ((m._segments.get ⟨j, by omega⟩).start_time ≤ t ∧
            t < (m._segments.get ⟨j, by omega⟩).end_time) := by
      intro j hj hmj
      have hd := List.pairwise_iff_getElem.mp hdisj j i (by omega) hi hj
      simp only [List.get_eq_getElem] at hmatch hmj
      rcases hd with hd | hd
      · exact absurd (lt_of_lt_of_le hmj.2 (le_trans hd hmatch.1)) (lt_irrefl t)
      · exact absurd (lt_of_lt_of_le hmatch.2 (le_trans hd hmj.1)) (lt_irrefl t)
    have hloop := getCurrentIndexLoop_first_match t m._segments i hi
      (by simpa using hmatch) hbefore 0
    unfold SubtitleManager.get_current_index
    rw [hne]
    simp only [Bool.false_eq_true, if_false]
    rw [hloop]
    omega
  · intro hall
    by_cases hemp : m._segments.isEmpty
    · simp [SubtitleManager.get_current_index, hemp]
    · have hloop := getCurrentIndexLoop_no_match t m._segments 0 ?_
      · unfold SubtitleManager.get_current_index
        rw [if_neg hemp]
        exact hloop
      · intro s hs
        obtain ⟨n, hn, rfl⟩ := List.mem_iff_getElem.mp hs
        have := hall n hn
        simpa using this

/-- Witness for C3 on the example segments `[(0,2),(2,4),(5,7)]`:
`t = 1 ↦ 0`, `t = 2 ↦ 1`, `t = 9/2 ↦ -1`, `t = 7 ↦ -1`. -/
theorem get_current_index_spec_witness :
    exampleManager.get_current_index 1 = 0 ∧
    exampleManager.get_current_index 2 = 1 ∧
    exampleManager.get_current_index (Rat.mk' 9 2) = -1 ∧
    exampleManager.get_current_index 7 = -1 := by
  refine ⟨?_, ?_, ?_, ?_⟩
  · exact (get_current_index_spec exampleManager (by decide) (by decide) 1).1 0
      (by decide) (by decide)
  · exact (get_current_index_spec exampleManager (by decide) (by decide) 2).1 1
      (by decide) (by decide)
  · exact (get_current_index_spec exampleManager (by decide) (by decide) (Rat.mk' 9 2)).2
      (by decide)
  · exact (get_current_index_spec exampleManager (by decide) (by decide) 7).2
      (by decide)

/-- C4: `move_file` fails and leaves the queue unchanged when either
index is out of range; succeeds without change when the indices
coincide; and otherwise relocates the item from `from_index` to
`to_index` (same length, moved item now at `to_index`) while repairing
the cursor exactly as the claim states: it becomes `to_index` when it
equalled `from_index`, decrements when `from < ci ≤ to`, increments
when `to ≤ ci < from`, and is unchanged otherwise. -/
theorem move_file_spec :
    (∀ (q : FileQueue) (f t : Int),
      ¬ ((0 ≤ f ∧ f < (q._items.length : Int)) ∧ (0 ≤ t ∧ t < (q._items.length : Int))) →
      q.move_file f t = (false, q)) ∧
    (∀ (q : FileQueue) (f t : Int),
      (0 ≤ f ∧ f < (q._items.length : Int)) → (0 ≤ t ∧ t < (q._items.length : Int)) →
      f = t → q.move_file f t = (true, q)) ∧
    (∀ (q : FileQueue) (f t : Int) (item : PlaylistItem),
      (0 ≤ f ∧ f < (q._items.length : Int)) → (0 ≤ t ∧ t < (q._items.length : Int)) →
      f ≠ t → q._items.get? f.toNat = some item →
      (q.move_file f t).1 = true ∧
      (q.move_file f t).2._items = (q._items.eraseIdx f.toNat).insertIdx t.toNat item ∧
      ((q.move_file f t).2._items)[t.toNat]? = some item ∧
      (q.move_file f t).2._items.length = q._items.length ∧
      (q.move_file f t).2._current_index =
        (if q._current_index = f then t
         else if f < q._current_index ∧ q._current_index ≤ t then q._current_index - 1
         else if t ≤ q._current_index ∧ q._current_index < f then q._current_index + 1
         else q._current_index)) := by
  refine ⟨?_, ?_, ?_⟩
  · intro q f t h
    unfold FileQueue.move_file
    by_cases h1 : 0 ≤ f ∧ f < (q._items.length : Int)
    · have h2 : ¬ (0 ≤ t ∧ t < (q._items.length : Int)) := fun h2 => h ⟨h1, h2⟩
      rw [if_neg (not_not_intro h1), if_pos h2]
    · rw [if_pos h1]
  · intro q f t h1 h2 h3
    unfold FileQueue.move_file
    rw [if_neg (not_not_intro h1), if_neg (not_not_intro h2), if_pos h3]
  · intro q f t item h1 h2 h3 hm
    have hmv := move_file_success q f t item h1 h2 h3 hm
    have hf : f.toNat < q._items.length := by omega
    have hlen : (q._items.eraseIdx f.toNat).length = q._items.length - 1 := by
      rw [List.length_eraseIdx]; simp [hf]
    have ht : t.toNat ≤ (q._items.eraseIdx f.toNat).length := by omega
    have hlen2 := List.length_insertIdx t.toNat (q._items.eraseIdx f.toNat) (a := item) ht
    refine ⟨by rw [hmv], by rw [hmv], ?_, ?_, by rw [hmv]⟩
    · rw [hmv]
      dsimp only
      have hb : t.toNat < ((q._items.eraseIdx f.toNat).insertIdx t.toNat item).length := by
        rw [hlen2]; omega
      rw [List.getElem?_eq_getElem hb]
      exact congrArg some (List.getElem_insertIdx_self _ _ _ ht)
    · rw [hmv]
      dsimp only
      rw [hlen2, hlen]
      omega

/-- Witness for C4: on the three-item queue `[A, B, C]` with cursor 0,
`move_file 0 2` reorders to `[B, C, A]` with cursor 2, and an
out-of-range move fails without change. -/
theorem move_file_spec_witness :
    qABC.move_file 3 0 = (false, qABC) ∧
    (qABC.move_file 0 2).2._current_index = 2 ∧
    (qABC.move_file 0 2).2._items.map PlaylistItem.file_path =
      ["b.wav", "c.wav", "a.wav"] := by
  have h3 := move_file_spec.2.2 qABC 0 2 ⟨"a.wav", "a.wav", FileState.PENDING, none⟩
    (by decide) (by decide) (by decide) (by decide)
  refine ⟨move_file_spec.1 qABC 3 0 (by decide), ?_, ?_⟩
  · rw [h3.2.2.2.2]; decide
  · rw [h3.2.1]; decide

/-- C5 counterexample: in the concrete run `cacheTrace` the worker (and
with it the external load/recognize/translate collaborators) is started
twice for `b.wav`, although `b.wav` already has a cache entry after the
prefix `bothCachedTrace` and the cache still holds it at the end (no
eviction ever occurs). The second start is issued by the automatic
advance in `_on_playback_finished`. -/
theorem playback_advance_reprocesses_cached :
    (runApp cacheTrace).2.countP (fun e => e == Effect.startWorker "b.wav") = 2 ∧
    (runApp bothCachedTrace).1.cached "b.wav" = true ∧
    (runApp cacheTrace).1.cached "b.wav" = true := by
  refine ⟨by decide, by decide, by decide⟩

/-- C5 (amended): selecting an item whose identity has a Result Cache
entry is a no-op that displays the cached result without invoking the
external collaborators; the automatic advance after playback finishes,
however, starts processing the next queue item unconditionally — it
never consults the cache, so a cached identity is re-processed there. -/
theorem cached_selection_no_reprocess :
    (∀ (s : AppState) (p : String), s.cached p = true →
      s.on_file_selected p = (s, [Effect.showCached p])) ∧
    (∀ (s : AppState) (p : String),
      (((s.queue.set_file_state s.queue.current_index FileState.COMPLETED).2).get_next_file).1 =
        some p →
      (s.on_playback_finished).2 = [Effect.startWorker p]) :=
  ⟨AppState.on_file_selected_cached, AppState.on_playback_finished_starts⟩

/-- Witness for the amended C5: after both files are processed,
selecting cached `a.wav` merely shows the cached result, while finishing
playback in `clickedState` starts a worker for cached `b.wav`. -/
theorem cached_selection_no_reprocess_witness :
    (runApp bothCachedTrace).1.on_file_selected "a.wav" =
      ((runApp bothCachedTrace).1, [Effect.showCached "a.wav"]) ∧
    (clickedState.on_playback_finished).2 = [Effect.startWorker "b.wav"] := by
  constructor
  · exact cached_selection_no_reprocess.1 (runApp bothCachedTrace).1 "a.wav" (by decide)
  · exact cached_selection_no_reprocess.2 clickedState "b.wav" (by decide)

/-- C6 counterexample: after the one-item run `errorTrace` whose
pipeline fails, no cache entry was written and exactly one error event
surfaced — but the failed item is still in state `PROCESSING`, not in a
non-`Processing` state as the claim requires. -/
theorem failed_item_stays_processing :
    (runApp errorTrace).1.queue._items.map PlaylistItem.state = [FileState.PROCESSING] ∧
    (runApp errorTrace).1.subtitle_cache = [] ∧
    (runApp errorTrace).2.countP isErrorEffect = 1 := by
  refine ⟨by decide, by decide, by decide⟩

/-- C6 (amended): a pipeline failure writes no cache entry and surfaces
exactly one error event, and the failed item can be retried by
reselecting it (an uncached selection starts a worker); but the handler
never resets the item's state — outside auto mode the whole state is
untouched, so an item that was `PROCESSING` stays `PROCESSING` until
some later `set_file_state(_, PROCESSING)` demotes it. -/
theorem on_error_no_cache_write :
    (∀ (s : AppState) (msg : String),
      (s.on_error msg).1.subtitle_cache = s.subtitle_cache ∧
      (s.on_error msg).2.countP isErrorEffect = 1) ∧
    (∀ (s : AppState) (msg : String), s.auto_processing = false →
      s.on_error msg = (s, [Effect.errorDialog msg])) ∧
    (∀ (s : AppState) (p : String), s.cached p = false →
      (s.on_file_selected p).2 = [Effect.startWorker p]) := by
  refine ⟨?_, ?_, ?_⟩
  · intro s msg
    by_cases hauto : s.auto_processing
    · refine ⟨?_, ?_⟩
      · simp [AppState.on_error, hauto, AppState.process_next_subtitle_cache]
      · simp [AppState.on_error, hauto, List.countP_cons, isErrorEffect,
          AppState.process_next_no_error]
    · exact ⟨by simp [AppState.on_error, hauto], by simp [AppState.on_error, hauto, isErrorEffect]⟩
  · intro s msg h
    simp [AppState.on_error, h]
  · intro s p h
    rw [AppState.on_file_selected_uncached s p h]
    rfl

/-- Witness for the amended C6 at concrete states: an error after
adding `a.wav` leaves the cache empty with one error dialog; from the
fresh window (auto mode off) the error handler changes nothing; and
reselecting the uncached `a.wav` starts a worker again. -/
theorem on_error_no_cache_write_witness :
    ((runApp [UEvent.addFiles ["a.wav"]]).1.on_error "boom").1.subtitle_cache = [] ∧
    ((runApp [UEvent.addFiles ["a.wav"]]).1.on_error "boom").2.countP isErrorEffect = 1 ∧
    AppState.init.on_error "boom" = (AppState.init, [Effect.errorDialog "boom"]) ∧
    ((runApp [UEvent.addFiles ["a.wav"]]).1.on_file_selected "a.wav").2 =
      [Effect.startWorker "a.wav"] := by
  have h1 := on_error_no_cache_write.1 (runApp [UEvent.addFiles ["a.wav"]]).1 "boom"
  refine ⟨?_, h1.2, on_error_no_cache_write.2.1 AppState.init "boom" (by decide),
    on_error_no_cache_write.2.2 (runApp [UEvent.addFiles ["a.wav"]]).1 "a.wav" (by decide)⟩
  rw [h1.1]
  decide

/-- C7: `translate_batch` always returns a list of exactly the input's
length whose `i`-th element keeps the `i`-th input's start time, end
time and original text (and carries the language pair); in the
translating case the result is the in-order concatenation of the
per-chunk results over consecutive `BATCH_SIZE = 10` chunks, and a
chunk whose external call fails (returning nothing after its bounded
retries) yields, for every item of that chunk, `translated_text` equal
to the original text — the function returns normally rather than
propagating the failure. The statement holds for every parser, hence in
particular for the regex-based `_parse_numbered_text`. -/
theorem translate_batch_spec (call : String → Option String)
    (parse : String → Nat → Nat → Option String) (segments : List TranscriptSegment)
    (source_lang target_lang : String) :
    (Translator.translate_batch call parse segments source_lang target_lang).1.length =
      segments.length ∧
    List.Forall₂ (Translator.segMatch source_lang target_lang) segments
      ((Translator.translate_batch call parse segments source_lang target_lang).1) ∧
    (Translator.should_translate source_lang target_lang = true →
      (Translator.translate_batch call parse segments source_lang target_lang).1 =
        ((Translator.chunksOf Translator.BATCH_SIZE segments).map
          (Translator.singleBatchResult call parse source_lang target_lang)).flatten) ∧
    (Translator.should_translate source_lang target_lang = true →
      ∀ c ∈ Translator.chunksOf Translator.BATCH_SIZE segments,
        call (Translator.promptFor c source_lang target_lang) = none →
        List.Forall₂ (fun s tr => tr.translated_text = s.text) c
          (Translator.singleBatchResult call parse source_lang target_lang c)) := by
  have hfields : List.Forall₂ (Translator.segMatch source_lang target_lang) segments
      ((Translator.translate_batch call parse segments source_lang target_lang).1) := by
    by_cases htr : Translator.should_translate source_lang target_lang
    · rw [Translator.translate_batch_eq_chunks call parse segments source_lang target_lang htr]
      exact Translator.translateChunks_forall₂ call parse source_lang target_lang
        (fun c off => Translator.single_batch_fields call parse c source_lang target_lang off)
        segments.length segments le_rfl 0
    · by_cases hemp : segments.isEmpty
      · have : segments = [] := by rwa [List.isEmpty_iff] at hemp
        subst this
        simp [Translator.translate_batch]
      · have hemp' : segments.isEmpty = false := by simpa using hemp
        have htr' : Translator.should_translate source_lang target_lang = false := by
          simpa using htr
        simp only [Translator.translate_batch, hemp', Bool.false_eq_true, if_false, htr',
          not_false_eq_true, if_true]
        rw [List.forall₂_map_right_iff]
        rw [List.forall₂_same]
        intro x _
        exact ⟨rfl, rfl, rfl, rfl, rfl⟩
  refine ⟨hfields.length_eq.symm, hfields, ?_, ?_⟩
  · intro htr
    rw [Translator.translate_batch_eq_chunks call parse segments source_lang target_lang htr]
    exact Translator.translateChunks_fst_eq call parse source_lang target_lang
      (Translator.chunksOf Translator.BATCH_SIZE segments) 0
  · intro _ c _ hfail
    exact Translator.single_batch_echo call parse c source_lang target_lang 0 hfail

/-- Witness for C7 on an 11-segment input (two chunks) with an
always-failing external call: the result still has 11 elements, equals
the concatenation of the two chunk results, and the failed first chunk
echoes every original text. -/
theorem translate_batch_spec_witness :
    (Translator.translate_batch callNone parseNone sampleSegs "ja" "zh").1.length = 11 ∧
    (Translator.translate_batch callNone parseNone sampleSegs "ja" "zh").1 =
      ((Translator.chunksOf Translator.BATCH_SIZE sampleSegs).map
        (Translator.singleBatchResult callNone parseNone "ja" "zh")).flatten ∧
    List.Forall₂ (fun s tr => tr.translated_text = s.text) sampleChunk
      (Translator.singleBatchResult callNone parseNone "ja" "zh" sampleChunk) := by
  have h := translate_batch_spec callNone parseNone sampleSegs "ja" "zh"
  refine ⟨?_, h.2.2.1 (by decide), h.2.2.2 (by decide) sampleChunk (by decide) rfl⟩
  rw [h.1]
  decide

/-- C8: on a non-empty input with equal source and target languages,
`translate_batch` makes zero calls to the external translation service
and returns segments whose translated text equals the original text
(which is the input's text). -/
theorem translate_batch_same_language (call : String → Option String)
    (parse : String → Nat → Nat → Option String) (segments : List TranscriptSegment)
    (source_lang target_lang : String) (heq : source_lang = target_lang)
    (hne : segments ≠ []) :
    (Translator.translate_batch call parse segments source_lang target_lang).2 = 0 ∧
    List.Forall₂
      (fun s tr => tr.translated_text = tr.original_text ∧ tr.original_text = s.text)
      segments
      ((Translator.translate_batch call parse segments source_lang target_lang).1) := by
  have hemp : segments.isEmpty = false := by
    cases segments with
    | nil => exact absurd rfl hne
    | cons x xs => rfl
  have hst : Translator.should_translate source_lang target_lang = false := by
    subst heq
    simp [Translator.should_translate]
  constructor
  · simp [Translator.translate_batch, hemp, hst]
  · simp only [Translator.translate_batch, hemp, Bool.false_eq_true, if_false, hst,
      not_false_eq_true, if_true]
    rw [List.forall₂_map_right_iff]
    rw [List.forall₂_same]
    intro x _
    exact ⟨rfl, rfl⟩

/-- Witness for C8: eleven `ja` segments translated `ja → ja` cause
zero external calls and echo every text. -/
theorem translate_batch_same_language_witness :
    (Translator.translate_batch callNone parseNone sampleSegs "ja" "ja").2 = 0 ∧
    List.Forall₂
      (fun s tr => tr.translated_text = tr.original_text ∧ tr.original_text = s.text)
      sampleSegs
      ((Translator.translate_batch callNone parseNone sampleSegs "ja" "ja").1) :=
  translate_batch_same_language callNone parseNone sampleSegs "ja" "ja" rfl (by decide)

/-- C9 counterexample: `FileState` has exactly five values, so it is
not a six-valued enumeration — there is no injection of six distinct
values into it (in particular no sixth `Failed` member exists). -/
theorem file_state_not_six_valued :
    Fintype.card FileState = 5 ∧ ¬ ∃ f : Fin 6 → FileState, Function.Injective f := by
  have hcard : Fintype.card FileState = 5 := by decide
  refine ⟨hcard, ?_⟩
  rintro ⟨f, hf⟩
  have h6 := Fintype.card_le_of_injective f hf
  rw [Fintype.card_fin, hcard] at h6
  omega

/-- C9 (amended): the item lifecycle state type is the five-valued
enumeration `PENDING | PROCESSING | READY | PLAYING | COMPLETED`; no
distinct `Failed` value exists. -/
theorem file_state_five_valued :
    (∀ s : FileState, s = FileState.PENDING ∨ s = FileState.PROCESSING ∨
      s = FileState.READY ∨ s = FileState.PLAYING ∨ s = FileState.COMPLETED) ∧
    ([FileState.PENDING, FileState.PROCESSING, FileState.READY, FileState.PLAYING,
      FileState.COMPLETED] : List FileState).Nodup := by
  constructor
  · intro s
    cases s <;> simp
  · decide

/-- C10: `add_files` does not deduplicate identities: adding a path `p`
with a supported extension to a queue of fewer than five items that
already contains an item with path `p` returns 1 and leaves the queue
with at least two items whose `file_path` equals `p`. -/
theorem add_files_no_dedup (q : FileQueue) (p : String)
    (hlen : q._items.length < 5)
    (hmem : ∃ it ∈ q._items, it.file_path = p)
    (hval : FileQueue._is_valid_format p = true) :
    (q.add_files [p]).1 = 1 ∧
    2 ≤ ((q.add_files [p]).2)._items.countP (fun it => it.file_path == p) := by
  have hfull : q.is_full = false := by
    simp only [FileQueue.is_full, MAX_FILES, decide_eq_false_iff_not]
    omega
  have hq : q.add_files [p] =
      (1, { q with _items := q._items ++ [⟨p, basename p, FileState.PENDING, none⟩] }) := by
    unfold FileQueue.add_files FileQueue.addFilesLoop
    rw [hfull]
    simp [hval, FileQueue.addFilesLoop]
  rw [hq]
  refine ⟨rfl, ?_⟩
  dsimp only
  rw [List.countP_append]
  have h1 : 0 < q._items.countP (fun it => it.file_path == p) := by
    rw [List.countP_pos_iff]
    obtain ⟨it, hit, hp⟩ := hmem
    exact ⟨it, hit, by simp [hp]⟩
  have h2 : List.countP (fun it => it.file_path == p)
      [(⟨p, basename p, FileState.PENDING, none⟩ : PlaylistItem)] = 1 := by
    simp
  omega

/-- Witness for C10: adding `x.wav` to the one-item queue already
holding `x.wav` returns 1 and produces two entries with that path. -/
theorem add_files_no_dedup_witness :
    (qDup.add_files ["x.wav"]).1 = 1 ∧
    2 ≤ ((qDup.add_files ["x.wav"]).2)._items.countP (fun it => it.file_path == "x.wav") :=
  add_files_no_dedup qDup "x.wav" (by decide)
    ⟨⟨"x.wav", "x.wav", FileState.PENDING, none⟩, by decide, rfl⟩ (by decide)

end Translatiner
